import Mathlib

/-!
Shallow embedding of the scan repository (src/scan.py, src/scan_ui.py):
device session management, flatbed/feeder acquisition, the ordered image
collection, and the document assembler (A4 normalization and saving).

Python strings are modelled as `List Char`, PIL images as the `Img`
structure (pixel dimensions, dpi metadata, and a symbolic pixel-content
term `Pix` recording provenance of the raster data: source frame, resize,
rotation, fresh canvas with paste).  Python float arithmetic is modelled as
exact rational arithmetic, except that the float `floor(log(N, 10))` of
`save_images` — whose double evaluation can fall below the exact value at
powers of 10 — is kept as an explicit oracle parameter; `round` is
modelled by `rhe`, round-half-to-even, as in Python.
`OrderedDict` is modelled as an association list where inserting an
existing key overwrites in place and a fresh key is appended at the end.
-/

/-- Symbolic pixel contents of a PIL image: a scanned source frame, or the
result of `resize`, `rotate(90, expand=True)`, or a fresh background canvas
with another image pasted onto it. -/
inductive Pix where
  | src (id : Nat)
  | resized (p : Pix) (w h : Int)
  | rot (p : Pix)
  | canvas (w h : Int) (bg : Nat × Nat × Nat) (pasted : Pix)
deriving DecidableEq

/-- Structural depth of a pixel term; used to show that a derived image is
never the same object as its source. -/
def pixDepth : Pix → Nat
  | .src _ => 0
  | .resized p _ _ => pixDepth p + 1
  | .rot p => pixDepth p + 1
  | .canvas _ _ _ p => pixDepth p + 1

/-- A PIL image: pixel dimensions, the optional `info['dpi']` metadata
entry, and the pixel data. -/
structure Img where
  width : Int
  height : Int
  info_dpi : Option (Rat × Rat)
  pixels : Pix
deriving DecidableEq

instance : Inhabited Pix := ⟨Pix.src 0⟩

instance : Inhabited Img := ⟨⟨0, 0, none, Pix.src 0⟩⟩

/-- The character for a single decimal digit `d < 10`. -/
def natDigitChar (d : Nat) : Char := Char.ofNat (48 + d)

/-- Big-endian decimal digit characters of `n`, empty for `0`; the `fuel`
argument only forces structural termination and never runs out when
`n ≤ fuel`. -/
def decReprAux : Nat → Nat → List Char
  | _, 0 => []
  | 0, _ + 1 => []
  | fuel + 1, n + 1 => decReprAux fuel ((n + 1) / 10) ++ [natDigitChar ((n + 1) % 10)]

/-- Decimal representation of a natural number, as Python `str(n)`. -/
def decRepr (n : Nat) : List Char :=
  if n = 0 then ['0'] else decReprAux n n

/-- Python format spec `'{:0wd}'.format(n)`: decimal representation of `n`,
left-padded with zeros to at least width `w`. -/
def zeroPadW (w n : Nat) : List Char :=
  List.replicate (w - (decRepr n).length) '0' ++ decRepr n

/-- Numeric value of a decimal digit character. -/
def digitVal (c : Char) : Nat := c.toNat - 48

/-- Value of a big-endian string of decimal digit characters (Python
`int(s)` on a digit string, leading zeros allowed). -/
def digitsVal (cs : List Char) : Nat := cs.foldl (fun a c => 10 * a + digitVal c) 0

/-- The first maximal run of decimal digits in a string, as matched by the
regular expression `([0-9]+)` used in `Scan.parse_index_from_name`. -/
def firstDigitRun : List Char → List Char
  | [] => []
  | c :: rest => if c.isDigit then c :: rest.takeWhile Char.isDigit else firstDigitRun rest

/-- `Scan.parse_index_from_name`: value of the first run of digits in an
image name, or `0` if the name holds no digit. -/
def parse_index_from_name (cs : List Char) : Nat := digitsVal (firstDigitRun cs)

/-- The two name templates the scan code passes to `Scan.get_next_name`:
`'{:03}_adf'` (feeder scans) and `'{:03}_flatbed'` (flatbed scans). -/
inductive SrcTag where
  | adf
  | flatbed
deriving DecidableEq

/-- The non-numeric tail of each name template. -/
def tagChars : SrcTag → List Char
  | .adf => "_adf".data
  | .flatbed => "_flatbed".data

/-- `Scan.get_next_name`: formats the current value of
`Scan.data_next_index_image` through the template and increments the
counter; returns the issued name together with the new counter. -/
def get_next_name (tag : SrcTag) (idx : Nat) : List Char × Nat :=
  (zeroPadW 3 idx ++ tagChars tag, idx + 1)

/-- Insertion into a Python (ordered) dict: an existing key is overwritten
in place, a fresh key is appended at the end. -/
def odictInsert {β : Type} (m : List (List Char × β)) (k : List Char) (v : β) :
    List (List Char × β) :=
  if k ∈ m.map Prod.fst then m.map (fun kv => if kv.1 = k then (k, v) else kv)
  else m ++ [(k, v)]

/-- Python dict lookup, as used for `Scan.data_devices[code]`. -/
def lookupA {β : Type} : List (List Char × β) → List Char → Option β
  | [], _ => none
  | kv :: rest, k => if kv.1 = k then some kv.2 else lookupA rest k

/-- Python `del d[k]`: removes the entry for `k`. -/
def eraseA {β : Type} (m : List (List Char × β)) (k : List Char) : List (List Char × β) :=
  m.filter (fun kv => decide (kv.1 ≠ k))

/-- `Scan.del_image_by_name`: removes the named image if present and
returns the updated collection together with the number of deletions. -/
def del_image_by_name {β : Type} (m : List (List Char × β)) (name : List Char) :
    List (List Char × β) × Nat :=
  if name ∈ m.map Prod.fst then (eraseA m name, 1) else (m, 0)

/-- Collection-level state: the global key counter
`Scan.data_next_index_image` and the ordered collection `self.images`. -/
structure CollSt where
  next_index : Nat
  images : List (List Char × Img)

/-- An append (a successful frame acquisition storing a new image under a
fresh key) or a deletion, with no session reset. -/
inductive CollOp where
  | append (tag : SrcTag) (img : Img)
  | delete (name : List Char)

/-- Runs a sequence of append/delete operations and records every key
issued by `get_next_name`, in order. -/
def runOps : List CollOp → CollSt → CollSt × List (List Char)
  | [], st => (st, [])
  | .append tag img :: rest, st =>
    let kn := get_next_name tag st.next_index
    let r := runOps rest ⟨kn.2, odictInsert st.images kn.1 img⟩
    (r.1, kn.1 :: r.2)
  | .delete name :: rest, st =>
    runOps rest ⟨st.next_index, (del_image_by_name st.images name).1⟩

/-- Dpi argument forms accepted by `Scan.dpi2tuple` that occur in the
program: a single number or a pair.  The string-parsing branch of
`dpi2tuple` is never exercised by the claims and is not modelled. -/
inductive DpiArg where
  | num (q : Rat)
  | pair (x y : Rat)
deriving DecidableEq

/-- `Scan.dpi2tuple` with `min_dpi = 0.01`: a falsy argument (`None` or the
number `0`) falls back to the default dpi 72; a single number is
duplicated; each component is clamped from below by `min_dpi`. -/
def dpi2tuple (dpi : Option DpiArg) : Rat × Rat :=
  match dpi with
  | none => (max (1/100) 72, max (1/100) 72)
  | some (.num q) =>
    if q = 0 then (max (1/100) 72, max (1/100) 72) else (max (1/100) q, max (1/100) q)
  | some (.pair x y) => (max (1/100) x, max (1/100) y)

/-- The dpi pair `Scan.convert_to_A4` reads from `im_input.info['dpi']`
after the stamping step at its entry: the override (or, for an image
without a dpi entry, the default) pushed through `dpi2tuple`, else the
image's own entry. -/
def effective_dpi (im : Img) (dpi : Option DpiArg) : Rat × Rat :=
  match dpi, im.info_dpi with
  | some d, _ => dpi2tuple (some d)
  | none, none => dpi2tuple none
  | none, some p => p

/-- Python `round`: round half to even (banker's rounding). -/
def rhe (q : Rat) : Int :=
  if q - ⌊q⌋ < 1/2 then ⌊q⌋
  else if 1/2 < q - ⌊q⌋ then ⌊q⌋ + 1
  else if ⌊q⌋ % 2 = 0 then ⌊q⌋ else ⌊q⌋ + 1

/-- `Scan.convert_to_A4`.  Returns the pair (input image as it is after
the call, output image): the source stamps `im_input.info['dpi']` in place
when the entry is missing or an explicit dpi argument is given, so the
stored input image itself can change.  `width_is_dominant`, in the source
`width_px * sqrt(2) >= height_px`, is expressed over the rationals as
`2 * width_px ^ 2 >= height_px ^ 2` (dimensions are nonnegative).  Float
arithmetic is idealized as exact rational arithmetic. -/
def convert_to_A4 (im_input : Img) (dpi : Option DpiArg) (stretch_content : Bool)
    (bg_color : Nat × Nat × Nat) : Img × Img :=
  let stamp : Bool := im_input.info_dpi.isNone || dpi.isSome
  let dd : Rat × Rat := effective_dpi im_input dpi
  let im_in : Img := if stamp then { im_input with info_dpi := some dd } else im_input
  let width_px : Rat := (im_input.width : Rat)
  let height_px : Rat := (im_input.height : Rat)
  let width_inch : Rat := width_px / dd.1
  let height_inch : Rat := height_px / dd.2
  if stretch_content then
    let factor_x := 827/100 / width_inch
    let factor_y := 1169/100 / height_inch
    let dimx := rhe (width_px * factor_x)
    let dimy := rhe (height_px * factor_y)
    (im_in, { width := dimx, height := dimy, info_dpi := im_in.info_dpi,
              pixels := .resized im_in.pixels dimx dimy })
  else
    let wdom : Bool := decide (2 * width_px ^ 2 ≥ height_px ^ 2)
    let factor : Rat := if wdom then 827/100 / width_inch else 1169/100 / height_inch
    let cw := rhe (width_px * factor)
    let ch := rhe (height_px * factor)
    let factor_x : Rat := if wdom then 1 else 827/100 * dd.1 / (cw : Rat)
    let factor_y : Rat := if wdom then 1169/100 * dd.2 / (ch : Rat) else 1
    let fw := rhe (factor_x * (cw : Rat))
    let fh := rhe (factor_y * (ch : Rat))
    (im_in, { width := fw, height := fh, info_dpi := none,
              pixels := .canvas fw fh bg_color (.resized im_in.pixels cw ch) })

/-- PIL `image.rotate(90, expand=True)`: the canvas expands to fit, so
width and height swap; the metadata dict is carried over. -/
def rotate90 (im : Img) : Img :=
  { width := im.height, height := im.width, info_dpi := im.info_dpi, pixels := .rot im.pixels }

/-- `E_OutputType` from scan.py. -/
inductive E_OutputType where
  | OT_UNSPECIFIED
  | OT_PDF
  | OT_PNG
deriving DecidableEq

/-- `E_Status_A4` from scan.py. -/
inductive E_Status_A4 where
  | SA_NONE
  | SA_PAD
  | SA_STRETCH
deriving DecidableEq

/-- Splits a path at its last slash into the `Path(p).parent` part (kept
with its trailing slash) and `Path(p).name`.  For a slash-free path the
directory part is empty, matching how `Path('.').joinpath(name)`
stringifies without a leading `./`.  Paths are assumed normalized (no
doubled or trailing slash), as `pathlib` normalizes them. -/
def path_split (cs : List Char) : List Char × List Char :=
  match (cs.reverse).findIdx? (fun c => c == '/') with
  | none => ([], cs)
  | some k => (cs.take (cs.length - k), cs.drop (cs.length - k))

/-- `Scan.save_images`.  Returns the status code together with the list of
file writes performed, each write holding the target path and the page
images written into that file: the multi-page PDF branch appends all pages
into one file, the single-page PNG branch writes enumerated sibling files,
prefixed `'{j:0{n_digits}d}_'` with `n_digits = floor(log(N, 10)) + 1`.
The source computes `floor(log(N, 10))` in IEEE-754 double arithmetic
(`math.log(N) / math.log(10)`), which the model keeps as the explicit
oracle `flog10`: the double quotient equals the exact `floor(log10 N)` for
most N — in particular `flog10 10 = 1`, since `log(10)/log(10)` is exactly
`1.0` — but can fall below it at powers of 10 (`math.log(1000, 10)` is
`2.9999999999999996`, so the program uses 3 digits at N = 1000 where exact
arithmetic would give 4). -/
def save_images (flog10 : Nat → Nat) (pfname : List Char) (images : List (List Char × Img))
    (tp : E_OutputType) (dpi : Option DpiArg) (enforce_A4 : E_Status_A4) (landscape : Bool) :
    Nat × List (List Char × List Img) :=
  if images = [] then (1, [])
  else if pfname = [] then (2, [])
  else
    let dd := dpi2tuple dpi
    let images1 := if enforce_A4 ≠ E_Status_A4.SA_NONE then
        images.map (fun kv => (kv.1,
          (convert_to_A4 kv.2 (some (.pair dd.1 dd.2))
            (decide (enforce_A4 = E_Status_A4.SA_STRETCH)) (255, 255, 255)).2))
      else images
    let images2 := if landscape then images1.map (fun kv => (kv.1, rotate90 kv.2)) else images1
    if 1 < images2.length then
      if tp = E_OutputType.OT_PDF then
        (0, [(pfname, images2.map Prod.snd)])
      else
        let n_digits := flog10 images2.length + 1
        let dir := (path_split pfname).1
        let fname := (path_split pfname).2
        (0, (images2.map Prod.snd).enum.map
          (fun ji => (dir ++ zeroPadW n_digits ji.1 ++ '_' :: fname, [ji.2])))
    else
      (0, [(pfname, images2.map Prod.snd)])

theorem digitVal_natDigitChar {d : Nat} (hd : d < 10) : digitVal (natDigitChar d) = d := by
  interval_cases d <;> decide

theorem isDigit_natDigitChar {d : Nat} (hd : d < 10) : (natDigitChar d).isDigit = true := by
  interval_cases d <;> decide

theorem digitsVal_append_one (l : List Char) (c : Char) :
    digitsVal (l ++ [c]) = 10 * digitsVal l + digitVal c := by
  unfold digitsVal
  rw [List.foldl_append, List.foldl_cons, List.foldl_nil]

theorem decReprAux_val : ∀ n fuel, n ≤ fuel → digitsVal (decReprAux fuel n) = n := by
  intro n
  induction n using Nat.strong_induction_on with
  | _ n ih =>
    intro fuel hle
    rcases n with _ | n
    · cases fuel <;> simp [decReprAux, digitsVal]
    · rcases fuel with _ | fuel
      · omega
      · simp only [decReprAux]
        rw [digitsVal_append_one]
        rw [digitVal_natDigitChar (Nat.mod_lt _ (by norm_num))]
        rw [ih ((n + 1) / 10) (Nat.div_lt_self (Nat.succ_pos n) (by norm_num)) fuel (by omega)]
        exact Nat.div_add_mod (n + 1) 10

theorem decReprAux_digits : ∀ n fuel, ∀ c ∈ decReprAux fuel n, c.isDigit = true := by
  intro n
  induction n using Nat.strong_induction_on with
  | _ n ih =>
    intro fuel c hc
    rcases n with _ | n
    · cases fuel <;> simp [decReprAux] at hc
    · rcases fuel with _ | fuel
      · simp [decReprAux] at hc
      · simp only [decReprAux] at hc
        rcases List.mem_append.mp hc with h | h
        · exact ih ((n + 1) / 10) (Nat.div_lt_self (Nat.succ_pos n) (by norm_num)) fuel c h
        · simp only [List.mem_singleton] at h
          subst h
          exact isDigit_natDigitChar (Nat.mod_lt _ (by norm_num))

theorem digitsVal_decRepr (n : Nat) : digitsVal (decRepr n) = n := by
  by_cases h : n = 0
  · subst h; decide
  · unfold decRepr
    rw [if_neg h]
    exact decReprAux_val n n le_rfl

theorem decRepr_ne_nil (n : Nat) : decRepr n ≠ [] := by
  unfold decRepr
  by_cases h : n = 0
  · simp [h]
  · rw [if_neg h]
    rcases n with _ | n
    · exact absurd rfl h
    · simp [decReprAux]

theorem decRepr_digits (n : Nat) : ∀ c ∈ decRepr n, c.isDigit = true := by
  intro c hc
  unfold decRepr at hc
  by_cases h : n = 0
  · rw [if_pos h] at hc
    simp at hc
    subst hc; decide
  · rw [if_neg h] at hc
    exact decReprAux_digits n n c hc

theorem zeroPadW_ne_nil (w n : Nat) : zeroPadW w n ≠ [] := by
  unfold zeroPadW
  intro h
  rcases List.append_eq_nil.mp h with ⟨_, h2⟩
  exact decRepr_ne_nil n h2

theorem zeroPadW_digits (w n : Nat) : ∀ c ∈ zeroPadW w n, c.isDigit = true := by
  intro c hc
  unfold zeroPadW at hc
  rcases List.mem_append.mp hc with h | h
  · rw [List.eq_of_mem_replicate h]; decide
  · exact decRepr_digits n c h

theorem digitsVal_zero_cons (l : List Char) : digitsVal ('0' :: l) = digitsVal l := by
  show List.foldl (fun a c => 10 * a + digitVal c) (10 * 0 + digitVal '0') l
    = List.foldl (fun a c => 10 * a + digitVal c) 0 l
  have h : 10 * 0 + digitVal '0' = 0 := by decide
  rw [h]

theorem digitsVal_replicate_zeros (k : Nat) (cs : List Char) :
    digitsVal (List.replicate k '0' ++ cs) = digitsVal cs := by
  induction k with
  | zero => simp
  | succ k ih =>
    rw [List.replicate_succ, List.cons_append, digitsVal_zero_cons]
    exact ih

theorem digitsVal_zeroPadW (w n : Nat) : digitsVal (zeroPadW w n) = n := by
  unfold zeroPadW
  rw [digitsVal_replicate_zeros]
  exact digitsVal_decRepr n

theorem takeWhile_append_stop (p : Char → Bool) (l : List Char) (hl : ∀ c ∈ l, p c = true)
    (y : Char) (hy : p y = false) (r : List Char) :
    (l ++ y :: r).takeWhile p = l := by
  induction l with
  | nil => simp [List.takeWhile_cons, hy]
  | cons c cs ih =>
    rw [List.cons_append, List.takeWhile_cons, hl c (List.mem_cons_self _ _)]
    simp only [ih (fun x hx => hl x (List.mem_cons_of_mem _ hx))]
    simp

theorem firstDigitRun_digits_stop (cs : List Char) (hne : cs ≠ [])
    (hd : ∀ c ∈ cs, c.isDigit = true) (y : Char) (hy : y.isDigit = false) (r : List Char) :
    firstDigitRun (cs ++ y :: r) = cs := by
  match cs, hne with
  | c :: cs', _ =>
    rw [List.cons_append]
    show (if c.isDigit then c :: (cs' ++ y :: r).takeWhile Char.isDigit
          else firstDigitRun (cs' ++ y :: r)) = c :: cs'
    rw [hd c (List.mem_cons_self _ _)]
    rw [takeWhile_append_stop _ cs' (fun x hx => hd x (List.mem_cons_of_mem _ hx)) y hy r]
    rfl

theorem parse_get_next_name (tag : SrcTag) (idx : Nat) :
    parse_index_from_name (get_next_name tag idx).1 = idx := by
  unfold get_next_name parse_index_from_name
  obtain ⟨r, hr⟩ : ∃ r, tagChars tag = '_' :: r := by cases tag <;> exact ⟨_, rfl⟩
  simp only [hr]
  rw [firstDigitRun_digits_stop _ (zeroPadW_ne_nil 3 idx) (zeroPadW_digits 3 idx) '_'
    (by decide) r]
  exact digitsVal_zeroPadW 3 idx

theorem runOps_issued_bounds (ops : List CollOp) (st : CollSt) :
    (∀ k ∈ (runOps ops st).2, st.next_index ≤ parse_index_from_name k)
    ∧ List.Pairwise (fun a b => parse_index_from_name a < parse_index_from_name b)
        (runOps ops st).2 := by
  induction ops generalizing st with
  | nil => simp [runOps]
  | cons op rest ih =>
    cases op with
    | append tag img =>
      have hkey : parse_index_from_name (get_next_name tag st.next_index).1 = st.next_index :=
        parse_get_next_name tag st.next_index
      obtain ⟨hb, hp⟩ := ih ⟨(get_next_name tag st.next_index).2,
        odictInsert st.images (get_next_name tag st.next_index).1 img⟩
      simp only [runOps]
      constructor
      · intro k hk
        rcases List.mem_cons.mp hk with rfl | hk
        · rw [hkey]
        · exact le_trans (Nat.le_succ _) (hb k hk)
      · refine List.Pairwise.cons ?_ hp
        intro b hbmem
        rw [hkey]
        exact lt_of_lt_of_le (Nat.lt_succ_self _) (hb b hbmem)
    | delete name =>
      simpa [runOps] using ih ⟨st.next_index, (del_image_by_name st.images name).1⟩

/-- C5: image keys are never reused.  Over any sequence of appends (which
issue keys through `get_next_name`) and deletions, with no session reset,
the list of issued keys contains no duplicate: the counter increments
monotonically, deletion never resets it, and distinct counter values yield
distinct formatted keys. -/
theorem scan_keys_never_reused (st : CollSt) (ops : List CollOp) :
    ((runOps ops st).2).Nodup := by
  have h := (runOps_issued_bounds ops st).2
  exact h.imp (fun hab => ne_of_apply_ne parse_index_from_name (Nat.ne_of_lt hab))

theorem rhe_of_lt_half {q : Rat} {z : Int} (h1 : (z : Rat) ≤ q) (h2 : q < z + 1)
    (h3 : q - z < 1/2) : rhe q = z := by
  have hf : ⌊q⌋ = z := Int.floor_eq_iff.mpr ⟨h1, h2⟩
  unfold rhe
  rw [hf, if_pos h3]

theorem rhe_of_gt_half {q : Rat} {z : Int} (h1 : (z : Rat) ≤ q) (h2 : q < z + 1)
    (h3 : 1/2 < q - z) : rhe q = z + 1 := by
  have hf : ⌊q⌋ = z := Int.floor_eq_iff.mpr ⟨h1, h2⟩
  unfold rhe
  rw [hf, if_neg (by linarith), if_pos h3]

theorem resized_ne_self (p : Pix) (w h : Int) : Pix.resized p w h ≠ p := by
  intro h'
  have hd := congrArg pixDepth h'
  simp only [pixDepth] at hd
  omega

theorem canvas_resized_ne_self (w h cw ch : Int) (bg : Nat × Nat × Nat) (p : Pix) :
    Pix.canvas w h bg (.resized p cw ch) ≠ p := by
  intro h'
  have hd := congrArg pixDepth h'
  simp only [pixDepth] at hd
  omega

/-- Sample stored image used in concrete instantiations: 100 x 100 px with
intrinsic dpi (100, 100). -/
def imgSample : Img := { width := 100, height := 100, info_dpi := some (100, 100), pixels := .src 7 }

/-- C2 counterexample: calling `convert_to_A4` with an explicit dpi
override mutates the stored input image in place: its `info['dpi']` entry
changes from (100, 100) to the stamped override (300, 300), so the input's
metadata is not left exactly as it was. -/
theorem convert_to_A4_mutates_input_cex :
    (convert_to_A4 imgSample (some (.pair 300 300)) true (255, 255, 255)).1.info_dpi
        = some (300, 300)
    ∧ imgSample.info_dpi = some (100, 100)
    ∧ (convert_to_A4 imgSample (some (.pair 300 300)) true (255, 255, 255)).1.info_dpi
        ≠ imgSample.info_dpi := by
  have hm : max (1/100 : Rat) 300 = 300 := max_eq_right (by norm_num)
  have h1 : (convert_to_A4 imgSample (some (.pair 300 300)) true (255, 255, 255)).1.info_dpi
      = some (max (1/100 : Rat) 300, max (1/100 : Rat) 300) := rfl
  have h2 : imgSample.info_dpi = some (100, 100) := rfl
  rw [h1, h2, hm]
  refine ⟨rfl, rfl, ?_⟩
  simp only [ne_eq, Option.some.injEq, Prod.mk.injEq, not_and]
  intro h
  norm_num at h

/-- C2 (amended): `convert_to_A4` never touches the input image's pixel
data or pixel dimensions, and the returned output is a freshly derived
image, never the input's pixel data; when no dpi override is given and the
input already has a dpi entry, the input is left entirely unchanged — but
a missing entry or an explicit override is stamped into the input's
`info['dpi']` in place (with the effective dpi pair). -/
theorem convert_to_A4_frame_effect (im : Img) (dpi : Option DpiArg) (stretch : Bool)
    (bg : Nat × Nat × Nat) (hw : 0 < im.width) (hh : 0 < im.height) :
    ((convert_to_A4 im dpi stretch bg).1.width = im.width
      ∧ (convert_to_A4 im dpi stretch bg).1.height = im.height
      ∧ (convert_to_A4 im dpi stretch bg).1.pixels = im.pixels)
    ∧ (convert_to_A4 im dpi stretch bg).1.info_dpi = some (effective_dpi im dpi)
    ∧ (dpi = none → im.info_dpi.isSome = true → (convert_to_A4 im dpi stretch bg).1 = im)
    ∧ (convert_to_A4 im dpi stretch bg).2.pixels ≠ im.pixels := by
  rcases im with ⟨w, h, info, px⟩
  cases dpi <;> rcases info with _ | p <;> cases stretch <;>
    refine ⟨⟨rfl, rfl, rfl⟩, rfl, ?_, ?_⟩ <;>
    first
      | (intro h1 h2; first | rfl | exact Option.noConfusion h1 | exact Bool.noConfusion h2)
      | exact resized_ne_self _ _ _
      | exact canvas_resized_ne_self _ _ _ _ _ _

/-- Witness for the C2 theorem at a concrete input: with no dpi override
and an intrinsic dpi present, the stored input is left unchanged. -/
theorem convert_to_A4_frame_effect_witness :
    (convert_to_A4 imgSample none true (255, 255, 255)).1 = imgSample :=
  ((convert_to_A4_frame_effect imgSample none true (255, 255, 255)
    (by decide) (by decide)).2.2.1) rfl rfl

/-- Input image for the stretch-mode aspect-ratio counterexample:
100 x 100 px at the program's default dpi 72. -/
def imC9 : Img := { width := 100, height := 100, info_dpi := some (72, 72), pixels := .src 0 }

/-- C9 counterexample: stretch-mode output of a 100 x 100 image at dpi
(72, 72) is 595 x 842 pixels, and 595:842 is not exactly 8.27:11.69
(595 * 11.69 = 6955.55 but 842 * 8.27 = 6963.34), so the rounding to whole
pixels breaks the claimed exact aspect ratio. -/
theorem convert_to_A4_stretch_aspect_cex :
    (convert_to_A4 imC9 none true (255, 255, 255)).2.width = 595
    ∧ (convert_to_A4 imC9 none true (255, 255, 255)).2.height = 842
    ∧ ¬ (((convert_to_A4 imC9 none true (255, 255, 255)).2.width : Rat) * (1169/100)
          = ((convert_to_A4 imC9 none true (255, 255, 255)).2.height : Rat) * (827/100)) := by
  have e1 : (convert_to_A4 imC9 none true (255, 255, 255)).2.width
      = rhe (((100 : Int) : Rat) * (827/100 / (((100 : Int) : Rat) / 72))) := rfl
  have e2 : (convert_to_A4 imC9 none true (255, 255, 255)).2.height
      = rhe (((100 : Int) : Rat) * (1169/100 / (((100 : Int) : Rat) / 72))) := rfl
  have v1 : rhe (((100 : Int) : Rat) * (827/100 / (((100 : Int) : Rat) / 72))) = 595 := by
    apply rhe_of_lt_half <;> push_cast <;> norm_num
  have v2 : rhe (((100 : Int) : Rat) * (1169/100 / (((100 : Int) : Rat) / 72))) = 841 + 1 := by
    apply rhe_of_gt_half <;> push_cast <;> norm_num
  rw [e1, e2, v1, v2]
  norm_num

/-- C9 (amended): in stretch mode the output pixel dimensions are exactly
`round(8.27 * dpi_x)` by `round(11.69 * dpi_y)` for the effective dpi pair
— independent of the input's size and aspect ratio — so the output aspect
ratio is 8.27:11.69 only up to the rounding of those two products, exact
whenever both products are whole numbers. -/
theorem convert_to_A4_stretch_dims (im : Img) (dpi : Option DpiArg) (bg : Nat × Nat × Nat)
    (hw : 0 < im.width) (hh : 0 < im.height)
    (hdx : 0 < (effective_dpi im dpi).1) (hdy : 0 < (effective_dpi im dpi).2) :
    (convert_to_A4 im dpi true bg).2.width = rhe (827/100 * (effective_dpi im dpi).1)
    ∧ (convert_to_A4 im dpi true bg).2.height = rhe (1169/100 * (effective_dpi im dpi).2) := by
  have hw' : ((im.width : Rat)) ≠ 0 := by
    have hcast : (0 : Rat) < (im.width : Rat) := by exact_mod_cast hw
    exact ne_of_gt hcast
  have hh' : ((im.height : Rat)) ≠ 0 := by
    have hcast : (0 : Rat) < (im.height : Rat) := by exact_mod_cast hh
    exact ne_of_gt hcast
  have hdx' : (effective_dpi im dpi).1 ≠ 0 := ne_of_gt hdx
  have hdy' : (effective_dpi im dpi).2 ≠ 0 := ne_of_gt hdy
  constructor
  · show rhe ((im.width : Rat) * (827/100 / ((im.width : Rat) / (effective_dpi im dpi).1)))
      = rhe (827/100 * (effective_dpi im dpi).1)
    congr 1
    field_simp
    ring
  · show rhe ((im.height : Rat) * (1169/100 / ((im.height : Rat) / (effective_dpi im dpi).2)))
      = rhe (1169/100 * (effective_dpi im dpi).2)
    congr 1
    field_simp
    ring

/-- Witness for the C9 theorem at a concrete input. -/
theorem convert_to_A4_stretch_dims_witness :
    (convert_to_A4 imC9 none true (255, 255, 255)).2.width = rhe (827/100 * 72)
    ∧ (convert_to_A4 imC9 none true (255, 255, 255)).2.height = rhe (1169/100 * 72) :=
  convert_to_A4_stretch_dims imC9 none (255, 255, 255)
    (by decide) (by decide) (by norm_num [effective_dpi, imC9]) (by norm_num [effective_dpi, imC9])

/-- C8: `save_images` validates before attempting any write: an empty
image collection fails with the distinct result code 1 (EmptyDocument) and
writes no file; a non-empty collection with an empty destination path
fails with the distinct result code 2 (InvalidDestination) and writes no
file. -/
theorem save_images_validation (flog10 : Nat → Nat) (pfname : List Char)
    (images : List (List Char × Img)) (tp : E_OutputType) (dpi : Option DpiArg)
    (enforce_A4 : E_Status_A4) (landscape : Bool) (hne : images ≠ []) :
    save_images flog10 pfname [] tp dpi enforce_A4 landscape = (1, [])
    ∧ save_images flog10 [] images tp dpi enforce_A4 landscape = (2, []) := by
  constructor
  · rfl
  · unfold save_images
    rw [if_neg hne]
    simp

/-- Witness for the C8 theorem at a concrete input. -/
theorem save_images_validation_witness :
    save_images (fun _ => 1) [] [(['k'], imgSample)] .OT_PDF none .SA_NONE false = (2, []) :=
  (save_images_validation (fun _ => 1) [] [(['k'], imgSample)] .OT_PDF none .SA_NONE false
    (List.cons_ne_nil _ _)).2

theorem enum_map_parts {α : Type} (l : List α) (a : List Char) (nd : Nat) (b : List Char) :
    (l.enum.map (fun ji => (a ++ zeroPadW nd ji.1 ++ b, [ji.2]))).map Prod.fst
      = (List.range l.length).map (fun j => a ++ zeroPadW nd j ++ b) := by
  rw [List.map_map]
  have h1 : (Prod.fst ∘ fun (ji : Nat × α) => (a ++ zeroPadW nd ji.1 ++ b, [ji.2]))
      = (fun j => a ++ zeroPadW nd j ++ b) ∘ Prod.fst := rfl
  rw [h1, ← List.map_map, List.enum_map_fst]

/-- C1 (amended): saving N > 1 images in the single-page-only PNG format
writes exactly N separate files in the directory of the requested base
path, each file name prefixed with a zero-padded index of uniform digit
width floor(log(N, 10)) + 1, the logarithm evaluated in floating point
(the oracle `flog10`) — for N = 10 the float log is exactly 1.0, so the
width is 2 digits, not ceil(log10 10) = 1 — while for N = 1 a single file
is written to the requested path with no prefix. -/
theorem save_images_png_enumeration (flog10 : Nat → Nat) (pfname : List Char)
    (images : List (List Char × Img)) (dpi : Option DpiArg) (enforce_A4 : E_Status_A4)
    (landscape : Bool) (hpf : pfname ≠ []) (hne : images ≠ []) :
    (save_images flog10 pfname images .OT_PNG dpi enforce_A4 landscape).1 = 0
    ∧ (save_images flog10 pfname images .OT_PNG dpi enforce_A4 landscape).2.length
        = images.length
    ∧ (save_images flog10 pfname images .OT_PNG dpi enforce_A4 landscape).2.map Prod.fst
      = (if images.length = 1 then [pfname]
         else (List.range images.length).map (fun j =>
           (path_split pfname).1
             ++ zeroPadW (flog10 images.length + 1) j
             ++ '_' :: (path_split pfname).2)) := by
  have hL : 0 < images.length := List.length_pos.mpr hne
  unfold save_images
  rw [if_neg hne, if_neg hpf]
  simp only []
  by_cases hA : enforce_A4 = E_Status_A4.SA_NONE <;>
    by_cases hLs : landscape = true <;>
      simp only [hA, hLs, ne_eq, not_true_eq_false, not_false_eq_true, if_true, if_false,
        ite_true, ite_false, Bool.false_eq_true, reduceIte, List.length_map] <;>
      by_cases h1 : images.length = 1 <;>
        first
        | (rw [if_neg (by omega : ¬ 1 < images.length), if_pos h1]
           refine ⟨rfl, by simp [h1], by simp⟩)
        | (rw [if_pos (by omega : 1 < images.length),
             if_neg (by decide : ¬ (E_OutputType.OT_PNG = E_OutputType.OT_PDF)), if_neg h1]
           refine ⟨rfl, by simp, ?_⟩
           rw [enum_map_parts]
           simp)

/-- Ten one-pixel images, for exercising the PNG enumeration at N = 10. -/
def imagesTen : List (List Char × Img) :=
  (List.range 10).map
    (fun j => (decRepr j, { width := 1, height := 1, info_dpi := none, pixels := .src j }))

/-- C1 counterexample: with N = 10 images the PNG branch writes file names
with a 2-digit numeric prefix (the first file is `00_scan.png`), but
ceil(log10(10)) = 1, so the claimed digit width `ceil(log10(N))`
contradicts both the code and the claim's own N = 10 example.  At N = 10
the program's float `floor(log(10, 10))` is exactly 1 (`log(10)/log(10)`
is `1.0` in IEEE-754 doubles, as `x/x = 1` for any finite nonzero double),
so the oracle is instantiated with that value. -/
theorem save_images_png_digit_width_cex :
    ((save_images (fun _ => 1) ("scan.png".data) imagesTen .OT_PNG none .SA_NONE false).2.map
        Prod.fst).head? = some ("00_scan.png".data)
    ∧ (firstDigitRun ("00_scan.png".data)).length = 2
    ∧ Nat.clog 10 10 = 1 := by
  refine ⟨by decide, by decide, ?_⟩
  rw [Nat.clog_of_two_le (by norm_num) (by norm_num)]
  norm_num [Nat.clog_one_right]

/-- Witness for the C1 theorem at a concrete input: ten images yield ten
writes and the `00_`-prefixed first name. -/
theorem save_images_png_enumeration_witness :
    (save_images (fun _ => 1) ("scan.png".data) imagesTen .OT_PNG none .SA_NONE false).1 = 0
    ∧ (save_images (fun _ => 1) ("scan.png".data) imagesTen .OT_PNG none .SA_NONE
        false).2.length = imagesTen.length :=
  ⟨(save_images_png_enumeration (fun _ => 1) ("scan.png".data) imagesTen none .SA_NONE false
      (by decide) (by decide)).1,
   (save_images_png_enumeration (fun _ => 1) ("scan.png".data) imagesTen none .SA_NONE false
      (by decide) (by decide)).2.1⟩

/-- A device descriptor tuple from `sane.get_devices()`:
(code, vendor, model, type). -/
structure Device where
  code : List Char
  vendor : List Char
  model : List Char
  tp : List Char
deriving DecidableEq

/-- Python `str.lower()` (over the ASCII range, which covers device
codes). -/
def lowerStr (cs : List Char) : List Char := cs.map Char.toLower

/-- First loop of `Scan.complete_code_hint`: the first device whose code
equals the hint case-insensitively. -/
def hint_pass_exact (hint : List Char) : List Device → Option (List Char)
  | [] => none
  | d :: rest =>
    if lowerStr hint = lowerStr d.code then some d.code else hint_pass_exact hint rest

/-- Second loop of `Scan.complete_code_hint`: the first device whose code
contains the hint as a case-insensitive substring (Python `in`, i.e. a
contiguous infix). -/
def hint_pass_substr (hint : List Char) : List Device → Option (List Char)
  | [] => none
  | d :: rest =>
    if lowerStr hint <:+: lowerStr d.code then some d.code
    else hint_pass_substr hint rest

/-- `Scan.complete_code_hint`: a `None` hint falls back to the default
code hint `'airscan'` from the `defaults` table; then the exact pass runs
over all descriptors, then the substring pass, else the call fails with
`None`. -/
def complete_code_hint (hint : Option (List Char)) (infos : List Device) :
    Option (List Char) :=
  let h := hint.getD ("airscan".data)
  match hint_pass_exact h infos with
  | some c => some c
  | none => hint_pass_substr h infos

theorem hint_pass_exact_eq_find (hint : List Char) (infos : List Device) :
    hint_pass_exact hint infos
      = (infos.find? (fun d => lowerStr hint == lowerStr d.code)).map Device.code := by
  induction infos with
  | nil => rfl
  | cons d rest ih =>
    by_cases h : lowerStr hint = lowerStr d.code
    · have hb : (lowerStr hint == lowerStr d.code) = true := beq_iff_eq.mpr h
      simp [hint_pass_exact, List.find?, h, hb]
    · have hb : (lowerStr hint == lowerStr d.code) = false := beq_eq_false_iff_ne.mpr h
      simp [hint_pass_exact, List.find?, h, hb, ih]

theorem hint_pass_substr_eq_find (hint : List Char) (infos : List Device) :
    hint_pass_substr hint infos
      = (infos.find? (fun d => decide (lowerStr hint <:+: lowerStr d.code))).map
          Device.code := by
  induction infos with
  | nil => rfl
  | cons d rest ih =>
    by_cases h : lowerStr hint <:+: lowerStr d.code
    · have hb : decide (lowerStr hint <:+: lowerStr d.code) = true := decide_eq_true h
      simp [hint_pass_substr, List.find?, h, hb]
    · have hb : decide (lowerStr hint <:+: lowerStr d.code) = false := decide_eq_false h
      simp [hint_pass_substr, List.find?, h, hb, ih]

/-- C7: `complete_code_hint` resolves a hint to the code of the first
descriptor whose code equals the hint case-insensitively, else the code of
the first descriptor containing the hint as a case-insensitive substring,
else fails with no code.  In particular `airscan` against
`[airscan:e0:X, v4l:/dev/video0]` resolves to `airscan:e0:X` (substring
pass). -/
theorem complete_code_hint_resolution :
    (∀ (hint : List Char) (infos : List Device),
      complete_code_hint (some hint) infos
        = (match infos.find? (fun d => lowerStr hint == lowerStr d.code) with
           | some d => some d.code
           | none =>
             (infos.find? (fun d => decide (lowerStr hint <:+: lowerStr d.code))).map
               Device.code))
    ∧ complete_code_hint (some ("airscan".data))
        [⟨"airscan:e0:X".data, [], [], []⟩, ⟨"v4l:/dev/video0".data, [], [], []⟩]
        = some ("airscan:e0:X".data) := by
  constructor
  · intro hint infos
    show (match hint_pass_exact hint infos with
          | some c => some c
          | none => hint_pass_substr hint infos) = _
    rw [hint_pass_exact_eq_find, hint_pass_substr_eq_find]
    cases infos.find? (fun d => lowerStr hint == lowerStr d.code) <;> rfl
  · decide

/-- Events observable at the driver boundary: closing and opening of
device handles, a frame stored into the collection, the per-frame
callback, and the completion callback. -/
inductive Event where
  | closedDev (h : Nat)
  | openedDev (h : Nat)
  | appended (key : List Char)
  | eachCb
  | doneCb
deriving DecidableEq

/-- `Scan.init_device`: resolves the code hint (failure returns 1); an
existing handle registered for the resolved code is closed first — but not
removed from the table; then `sane.open` is attempted, modelled by the
oracle `openRes` (`none` models a raised `_sane.error`): on failure the
result is 2 and the table is left exactly as it was, on success the fresh
handle is registered under the code and the result is 0.  The returned
event list records closes and opens in order. -/
def init_device (hint : Option (List Char)) (openRes : List Char → Option Nat)
    (infos : List Device) (table : List (List Char × Nat)) :
    Nat × List (List Char × Nat) × List Event :=
  match complete_code_hint hint infos with
  | none => (1, table, [])
  | some code =>
    let closeEvs : List Event :=
      match lookupA table code with
      | some hOld => [.closedDev hOld]
      | none => []
    match openRes code with
    | none => (2, table, closeEvs)
    | some hNew => (0, odictInsert table code hNew, closeEvs ++ [.openedDev hNew])

theorem lookupA_cons {β : Type} (kv : List Char × β) (l : List (List Char × β))
    (k : List Char) :
    lookupA (kv :: l) k = if kv.1 = k then some kv.2 else lookupA l k := rfl

theorem lookupA_map_replace {β : Type} (m : List (List Char × β)) (k : List Char) (v : β)
    (hmem : k ∈ m.map Prod.fst) :
    lookupA (m.map (fun kv => if kv.1 = k then (k, v) else kv)) k = some v := by
  induction m with
  | nil => simp at hmem
  | cons kv rest ih =>
    by_cases h : kv.1 = k
    · rw [List.map_cons, if_pos h, lookupA_cons, if_pos rfl]
    · rw [List.map_cons, if_neg h, lookupA_cons, if_neg h]
      apply ih
      simp only [List.map_cons, List.mem_cons] at hmem
      rcases hmem with h1 | h1
      · exact absurd h1.symm h
      · exact h1

theorem lookupA_append_last {β : Type} (m : List (List Char × β)) (k : List Char) (v : β)
    (hmem : k ∉ m.map Prod.fst) :
    lookupA (m ++ [(k, v)]) k = some v := by
  induction m with
  | nil => rw [List.nil_append, lookupA_cons, if_pos rfl]
  | cons kv rest ih =>
    have h : kv.1 ≠ k := by
      intro he
      apply hmem
      rw [List.map_cons, he]
      exact List.mem_cons_self k _
    rw [List.cons_append, lookupA_cons, if_neg h]
    apply ih
    intro hx
    apply hmem
    simp only [List.map_cons, List.mem_cons]
    exact Or.inr hx

theorem lookupA_odictInsert {β : Type} (m : List (List Char × β)) (k : List Char) (v : β) :
    lookupA (odictInsert m k v) k = some v := by
  unfold odictInsert
  by_cases hmem : k ∈ m.map Prod.fst
  · rw [if_pos hmem]
    exact lookupA_map_replace m k v hmem
  · rw [if_neg hmem]
    exact lookupA_append_last m k v hmem

theorem lookupA_eraseA {β : Type} (m : List (List Char × β)) (k : List Char) :
    lookupA (eraseA m k) k = none := by
  induction m with
  | nil => rfl
  | cons kv rest ih =>
    by_cases h : kv.1 = k
    · simpa [eraseA, List.filter, h] using ih
    · simpa [eraseA, List.filter, h, lookupA, if_neg h] using ih

/-- Device descriptor for concrete device-management instantiations. -/
def devA : Device := ⟨"dev:a".data, [], [], []⟩

/-- C3 counterexample: when a handle (7) is already registered for the
code and the driver open fails, `init_device` returns the error result 2
but the old — now closed — handle is still registered for the code in the
device table, contradicting that no handle remains registered. -/
theorem init_device_stale_handle_cex :
    (init_device (some ("dev:a".data)) (fun _ => none) [devA] [("dev:a".data, 7)]).1 = 2
    ∧ lookupA (init_device (some ("dev:a".data)) (fun _ => none) [devA]
        [("dev:a".data, 7)]).2.1 ("dev:a".data) = some 7
    ∧ (init_device (some ("dev:a".data)) (fun _ => none) [devA]
        [("dev:a".data, 7)]).2.2 = [Event.closedDev 7] := by
  refine ⟨by decide, by decide, by decide⟩

/-- C3 (amended): for a resolvable code hint, `init_device` closes any
existing handle registered for the resolved code before the open attempt;
if the driver open fails it returns the error result 2 and leaves the
device table exactly as it was — so when no handle was registered before,
none is after, but a previously registered (now closed) handle remains in
the table; on success the fresh handle is registered. -/
theorem init_device_behavior (hint : Option (List Char)) (openRes : List Char → Option Nat)
    (infos : List Device) (table : List (List Char × Nat)) (code : List Char)
    (hres : complete_code_hint hint infos = some code) :
    (∀ hOld, lookupA table code = some hOld →
      (init_device hint openRes infos table).2.2
        = Event.closedDev hOld ::
            (match openRes code with
             | none => []
             | some hNew => [Event.openedDev hNew]))
    ∧ (openRes code = none →
        (init_device hint openRes infos table).1 = 2
        ∧ (init_device hint openRes infos table).2.1 = table)
    ∧ (∀ hNew, openRes code = some hNew →
        (init_device hint openRes infos table).1 = 0
        ∧ lookupA (init_device hint openRes infos table).2.1 code = some hNew) := by
  refine ⟨?_, ?_, ?_⟩
  · intro hOld hOldEq
    cases hoc : openRes code <;>
      simp [init_device, hres, hOldEq, hoc]
  · intro hNone
    constructor <;> simp [init_device, hres, hNone]
  · intro hNew hSome
    refine ⟨by simp [init_device, hres, hSome], ?_⟩
    simp [init_device, hres, hSome, lookupA_odictInsert]

/-- Witness for the C3 theorem at a concrete input: open succeeds and the
fresh handle 9 ends up registered. -/
theorem init_device_behavior_witness :
    (init_device (some ("dev:a".data)) (fun _ => some 9) [devA] []).1 = 0
    ∧ lookupA (init_device (some ("dev:a".data)) (fun _ => some 9) [devA] []).2.1
        ("dev:a".data) = some 9 :=
  (init_device_behavior (some ("dev:a".data)) (fun _ => some 9) [devA] [] ("dev:a".data)
    (by decide)).2.2 9 rfl

/-- Process-level state for the acquisition methods: the key counter
`Scan.data_next_index_image`, the collection `self.images` (the methods
are modelled at their call sites, which all pass `images=None`, i.e. the
collection parameter aliases `self.images`), and the device table
`Scan.data_devices` (handles as numeric ids). -/
structure ScanSt where
  next_index : Nat
  images : List (List Char × Img)
  data_devices : List (List Char × Nat)

/-- The acquisition loop of `Scan.scan_adf`: at iteration `i` the stop
flag (written concurrently by `scan_stop`, modelled as the value `stops i`
observed at the check) is tested first; then `device.scan()` either yields
the next frame of `frames` — which is stored under a fresh `'{:03}_adf'`
key, firing `cb_single_done` when provided — or raises (feeder empty or
any other driver error) once `frames` is exhausted, which breaks the loop.
The printed message for the raised error only affects logging and is not
modelled. -/
def adf_loop (stops : Nat → Bool) (cbEach : Bool) :
    Nat → List Img → ScanSt → ScanSt × List Event
  | _, [], st => (st, [])
  | i, f :: rest, st =>
    if stops i then (st, [])
    else
      let kn := get_next_name .adf st.next_index
      let st1 : ScanSt := { st with next_index := kn.2, images := odictInsert st.images kn.1 f }
      let r := adf_loop stops cbEach (i + 1) rest st1
      (r.1, (Event.appended kn.1 :: (if cbEach then [Event.eachCb] else [])) ++ r.2)

/-- `Scan.scan_adf`: when no handle is registered for the code the method
only prints and returns (no events, nothing reported).  Otherwise the
unguarded assignment `device.source = 'ADF'` runs outside any `try`: the
driver may reject it and raise, which propagates out of `scan_adf` at once
— the oracle `sourceSetErr` gives that raised error, `none` meaning the
assignment succeeded.  On such an exception nothing has been mutated yet:
no frame is stored, the handle is neither closed nor removed from the
table, and no callback fires; the escaped exception is the fourth result
component.  (`Scan.set_resolution` catches its own driver errors and is
not fallible here.)  On success the acquisition loop runs, the handle is
closed and removed from the device table, the number of newly stored
images is reported (the length difference of `self.images`), and finally
`cb_done` fires when provided. -/
def scan_adf (code : List Char) (sourceSetErr : Option (List Char)) (frames : List Img)
    (stops : Nat → Bool) (cbDone cbEach : Bool) (st : ScanSt) :
    ScanSt × List Event × Option Nat × Option (List Char) :=
  match lookupA st.data_devices code with
  | none => (st, [], none, none)
  | some h =>
    match sourceSetErr with
    | some err => (st, [], none, some err)
    | none =>
      let n0 := st.images.length
      let r := adf_loop stops cbEach 0 frames st
      let st2 : ScanSt := { r.1 with data_devices := eraseA r.1.data_devices code }
      let n1 := r.1.images.length - n0
      (st2, r.2 ++ [Event.closedDev h] ++ (if cbDone then [Event.doneCb] else []),
       some n1, none)

/-- `Scan.scan_flatbed`: when no handle is registered for the code the
method only prints and returns.  Otherwise one frame is requested
(`scanRes`; an error models a raised `_sane.error`); on success the stop
flag — whose value at the check is `stopAtCheck` — is consulted: if set,
the completed frame is discarded, otherwise it is stored under a fresh
`'{:03}_flatbed'` key.  The handle is then closed and removed from the
table, the count of new images is reported, and `cb_done` fires when
provided. -/
def scan_flatbed (code : List Char) (scanRes : Except (List Char) Img) (stopAtCheck : Bool)
    (cbDone : Bool) (st : ScanSt) : ScanSt × List Event × Option Nat :=
  match lookupA st.data_devices code with
  | none => (st, [], none)
  | some h =>
    let n0 := st.images.length
    let r : ScanSt × List Event :=
      match scanRes with
      | .ok img =>
        if stopAtCheck then (st, [])
        else
          let kn := get_next_name .flatbed st.next_index
          ({ st with next_index := kn.2, images := odictInsert st.images kn.1 img },
           [Event.appended kn.1])
      | .error _ => (st, [])
    let st2 : ScanSt := { r.1 with data_devices := eraseA r.1.data_devices code }
    let n1 := r.1.images.length - n0
    (st2, r.2 ++ [Event.closedDev h] ++ (if cbDone then [Event.doneCb] else []), some n1)

theorem odictInsert_fresh {β : Type} (m : List (List Char × β)) (k : List Char) (v : β)
    (h : k ∉ m.map Prod.fst) : odictInsert m k v = m ++ [(k, v)] := if_neg h

theorem adf_loop_events (stops : Nat → Bool) (cbEach : Bool) :
    ∀ (frames : List Img) (i : Nat) (st : ScanSt),
    ∀ e ∈ (adf_loop stops cbEach i frames st).2,
      (∃ k, e = Event.appended k) ∨ e = Event.eachCb := by
  intro frames
  induction frames with
  | nil =>
    intro i st e he
    simp [adf_loop] at he
  | cons f rest ih =>
    intro i st e he
    cases hs : stops i
    case true =>
      simp [adf_loop, hs] at he
    case false =>
      simp only [adf_loop, hs, Bool.false_eq_true, if_false, List.cons_append,
        List.mem_cons, List.mem_append] at he
      rcases he with rfl | he
      · exact Or.inl ⟨_, rfl⟩
      · rcases he with he | he
        · cases hc : cbEach <;> rw [hc] at he <;> simp at he
          exact Or.inr he
        · exact ih (i + 1) _ e he

theorem adf_loop_spec (stops : Nat → Bool) (cbEach : Bool) :
    ∀ (frames : List Img) (i : Nat) (st : ScanSt),
    (∀ k ∈ st.images.map Prod.fst, parse_index_from_name k < st.next_index) →
    ∃ new, (adf_loop stops cbEach i frames st).1.images = st.images ++ new
      ∧ (adf_loop stops cbEach i frames st).1.next_index = st.next_index + new.length
      ∧ (adf_loop stops cbEach i frames st).1.data_devices = st.data_devices
      ∧ ((adf_loop stops cbEach i frames st).2.countP
           (fun e => match e with | Event.appended _ => true | _ => false)) = new.length
      ∧ (∀ k ∈ (adf_loop stops cbEach i frames st).1.images.map Prod.fst,
           parse_index_from_name k < (adf_loop stops cbEach i frames st).1.next_index) := by
  intro frames
  induction frames with
  | nil =>
    intro i st hinv
    exact ⟨[], by simp [adf_loop], by simp [adf_loop], by simp [adf_loop],
      by simp [adf_loop], by simpa [adf_loop] using hinv⟩
  | cons f rest ih =>
    intro i st hinv
    cases hs : stops i
    case true =>
      exact ⟨[], by simp [adf_loop, hs], by simp [adf_loop, hs], by simp [adf_loop, hs],
        by simp [adf_loop, hs], by simpa [adf_loop, hs] using hinv⟩
    case false =>
      have hkeyval : parse_index_from_name (get_next_name SrcTag.adf st.next_index).1
          = st.next_index := parse_get_next_name SrcTag.adf st.next_index
      have hfresh : (get_next_name SrcTag.adf st.next_index).1 ∉ st.images.map Prod.fst := by
        intro hmem
        have hlt := hinv _ hmem
        rw [hkeyval] at hlt
        exact lt_irrefl _ hlt
      have hins : odictInsert st.images (get_next_name SrcTag.adf st.next_index).1 f
          = st.images ++ [((get_next_name SrcTag.adf st.next_index).1, f)] :=
        odictInsert_fresh _ _ _ hfresh
      have hinv1 : ∀ k ∈ (odictInsert st.images (get_next_name SrcTag.adf st.next_index).1
          f).map Prod.fst, parse_index_from_name k < st.next_index + 1 := by
        rw [hins]
        intro k hk
        rw [List.map_append, List.mem_append] at hk
        rcases hk with hk | hk
        · exact lt_trans (hinv k hk) (Nat.lt_succ_self _)
        · simp only [List.map_cons, List.map_nil, List.mem_singleton] at hk
          subst hk
          rw [hkeyval]
          exact Nat.lt_succ_self _
      obtain ⟨new, h1, h2, h3, h4, h5⟩ := ih (i + 1)
        { st with next_index := (get_next_name SrcTag.adf st.next_index).2,
                  images := odictInsert st.images (get_next_name SrcTag.adf st.next_index).1 f }
        hinv1
      refine ⟨((get_next_name SrcTag.adf st.next_index).1, f) :: new, ?_, ?_, ?_, ?_, ?_⟩
      · simp only [adf_loop, hs, Bool.false_eq_true, if_false]
        rw [h1]
        simp [hins]
      · simp only [adf_loop, hs, Bool.false_eq_true, if_false]
        rw [h2]
        simp only [List.length_cons]
        show st.next_index + 1 + new.length = st.next_index + (new.length + 1)
        omega
      · simp only [adf_loop, hs, Bool.false_eq_true, if_false]
        exact h3
      · simp only [adf_loop, hs, Bool.false_eq_true, if_false]
        cases cbEach <;>
          simp [List.countP_append, List.countP_cons, h4]
      · simp only [adf_loop, hs, Bool.false_eq_true, if_false]
        exact h5

/-- C6 (amended): for a feeder run on an available device (a handle
registered for the resolved code) whose initial `device.source = 'ADF'`
assignment succeeds, the completion callback fires exactly once, after the
device handle has been closed, regardless of how the acquisition loop
ended (feeder empty, stop request, or any other in-loop driver error — all
modelled by the frame list ending or the stop flag); the run keeps every
successfully appended frame in the collection, appended at the end in
order, and reports exactly their count.  If the unguarded source
assignment itself raises a driver error, the exception escapes `scan_adf`
before the handle is closed: the state is unchanged and no callback
fires. -/
theorem scan_adf_done_once (code : List Char) (frames : List Img) (stops : Nat → Bool)
    (cbEach : Bool) (st : ScanSt) (h : Nat)
    (hdev : lookupA st.data_devices code = some h)
    (hinv : ∀ k ∈ st.images.map Prod.fst, parse_index_from_name k < st.next_index) :
    (∃ evs, (scan_adf code none frames stops true cbEach st).2.1
        = evs ++ [Event.closedDev h, Event.doneCb]
      ∧ ∀ e ∈ evs, e ≠ Event.doneCb ∧ e ≠ Event.closedDev h)
    ∧ (∃ new, (scan_adf code none frames stops true cbEach st).1.images = st.images ++ new
      ∧ (scan_adf code none frames stops true cbEach st).2.2.1 = some new.length
      ∧ new.length = (scan_adf code none frames stops true cbEach st).2.1.countP
          (fun e => match e with | Event.appended _ => true | _ => false))
    ∧ (∀ err, scan_adf code (some err) frames stops true cbEach st
        = (st, [], none, some err)) := by
  obtain ⟨new, h1, h2, h3, h4, h5⟩ := adf_loop_spec stops cbEach frames 0 st hinv
  refine ⟨?_, ?_, ?_⟩
  · refine ⟨(adf_loop stops cbEach 0 frames st).2, ?_, ?_⟩
    · simp [scan_adf, hdev]
    · intro e he
      rcases adf_loop_events stops cbEach frames 0 st e he with ⟨k, rfl⟩ | rfl <;>
        exact ⟨by simp, by simp⟩
  · refine ⟨new, ?_, ?_, ?_⟩
    · simp only [scan_adf, hdev]
      exact h1
    · simp only [scan_adf, hdev]
      rw [h1]
      simp
    · simp only [scan_adf, hdev]
      rw [List.countP_append, List.countP_append]
      simp [h4]
  · intro err
    simp [scan_adf, hdev]

/-- Process state for concrete acquisition instantiations: empty
collection, counter 0, one registered handle 5 for device code `dev:a`. -/
def stDev : ScanSt := ⟨0, [], [("dev:a".data, 5)]⟩

/-- Witness for the C6 theorem at a concrete input: a one-frame feeder run
with a successful source assignment reports one new image. -/
theorem scan_adf_done_once_witness :
    (scan_adf ("dev:a".data) none [imgSample] (fun _ => false) true true stDev).2.2.1
      = some 1 := by
  obtain ⟨-, ⟨new, hnew, hrep, hcount⟩, -⟩ :=
    scan_adf_done_once ("dev:a".data) [imgSample] (fun _ => false) true stDev 5
      (by decide) (by simp [stDev])
  have hlen : new.length = 1 := by
    have himg : (scan_adf ("dev:a".data) none [imgSample] (fun _ => false) true true
        stDev).1.images = new := by simpa [stDev] using hnew
    have hc : (scan_adf ("dev:a".data) none [imgSample] (fun _ => false) true true
        stDev).1.images = [((get_next_name SrcTag.adf 0).1, imgSample)] := by decide
    rw [hc] at himg
    rw [← himg]
    rfl
  rw [hrep, hlen]

/-- C6 counterexample: on an available device (handle 5 registered) whose
driver rejects the unguarded `device.source = 'ADF'` assignment, the
exception escapes `scan_adf` before `device.close()` and before `cb_done`:
the event trace is empty — the done callback fires zero times, not once —
and the handle is still registered, refuting that the completion callback
fires exactly once after the close regardless of any driver error. -/
theorem scan_adf_source_error_cex :
    (scan_adf ("dev:a".data) (some ['e']) [imgSample] (fun _ => false) true true stDev).2.1
      = []
    ∧ ((scan_adf ("dev:a".data) (some ['e']) [imgSample] (fun _ => false) true true
        stDev).2.1.countP (fun ev => decide (ev = Event.doneCb))) = 0
    ∧ lookupA (scan_adf ("dev:a".data) (some ['e']) [imgSample] (fun _ => false) true true
        stDev).1.data_devices ("dev:a".data) = some 5
    ∧ (scan_adf ("dev:a".data) (some ['e']) [imgSample] (fun _ => false) true true
        stDev).2.2.2 = some ['e'] := by
  refine ⟨by decide, by decide, by decide, by decide⟩

/-- C10: when a stop request is raised during a flatbed scan — the frame
request succeeded but the stop flag is set at the check — the completed
frame is discarded: the collection is unchanged, the key counter is not
advanced, zero new images are reported, yet the device handle is still
closed and removed from the table and the completion callback still fires
exactly once, after the close. -/
theorem scan_flatbed_stop_discard (code : List Char) (img : Img) (st : ScanSt) (h : Nat)
    (hdev : lookupA st.data_devices code = some h) :
    (scan_flatbed code (Except.ok img) true true st).1.images = st.images
    ∧ (scan_flatbed code (Except.ok img) true true st).1.next_index = st.next_index
    ∧ (scan_flatbed code (Except.ok img) true true st).2.2 = some 0
    ∧ lookupA (scan_flatbed code (Except.ok img) true true st).1.data_devices code = none
    ∧ (scan_flatbed code (Except.ok img) true true st).2.1
        = [Event.closedDev h, Event.doneCb] := by
  refine ⟨?_, ?_, ?_, ?_, ?_⟩ <;>
    simp [scan_flatbed, hdev, lookupA_eraseA]

/-- Witness for the C10 theorem at a concrete input. -/
theorem scan_flatbed_stop_discard_witness :
    (scan_flatbed ("dev:a".data) (Except.ok imgSample) true true stDev).2.1
      = [Event.closedDev 5, Event.doneCb] :=
  (scan_flatbed_stop_discard ("dev:a".data) imgSample stDev 5 (by decide)).2.2.2.2

/-- Python `list.index` as used in `ScanGui.image_up_dn`: the position of
the first occurrence; `none` models the raised `ValueError`. -/
def list_index (e : List Char) : List (List Char) → Option Nat
  | [] => none
  | x :: rest => if x = e then some 0 else (list_index e rest).map (· + 1)

/-- `ScanGui.image_up_dn`: `entry_current` is the selected listbox entry
(`none` when there is no selection, in which case the method returns at
once); `entries` are the listbox entries, which mirror the image keys of
`self.scan.images` (kept in sync by `update_listbox_preview`).  The
selected index moves one step up or down, clamped into range, and the
entry at the new index becomes the active selection — the image collection
itself is never touched.  A failing `entries.index` (which would raise
`ValueError` in the source and cannot occur for a synced listbox) is
modelled as leaving everything unchanged. -/
def image_up_dn (up : Bool) (images : List (List Char × Img))
    (active : Option (List Char)) : List (List Char × Img) × Option (List Char) :=
  match active with
  | none => (images, none)
  | some e =>
    let entries := images.map Prod.fst
    match list_index e entries with
    | none => (images, some e)
    | some i =>
      let i1 : Int := (i : Int) + (if up then -1 else 1)
      let i2 : Int := if i1 < 0 then 0
        else if (entries.length : Int) ≤ i1 then (entries.length : Int) - 1 else i1
      (images, some (entries.getD i2.toNat e))

theorem list_index_lt (e : List Char) :
    ∀ (l : List (List Char)) (i : Nat), list_index e l = some i → i < l.length := by
  intro l
  induction l with
  | nil => intro i h; simp [list_index] at h
  | cons x rest ih =>
    intro i h
    by_cases hx : x = e
    · simp only [list_index, if_pos hx, Option.some.injEq] at h
      subst h
      simp
    · simp only [list_index, if_neg hx, Option.map_eq_some'] at h
      obtain ⟨j, hj, rfl⟩ := h
      have := ih j hj
      simp
      omega

theorem list_index_get (e : List Char) :
    ∀ (l : List (List Char)) (i : Nat), list_index e l = some i → l.getD i e = e := by
  intro l
  induction l with
  | nil => intro i h; simp [list_index] at h
  | cons x rest ih =>
    intro i h
    by_cases hx : x = e
    · simp only [list_index, if_pos hx, Option.some.injEq] at h
      subst h
      simpa using hx
    · simp only [list_index, if_neg hx, Option.map_eq_some'] at h
      obtain ⟨j, hj, rfl⟩ := h
      simpa using ih j hj

theorem image_up_dn_eval (up : Bool) (images : List (List Char × Img)) (e : List Char)
    (i : Nat) (hidx : list_index e (images.map Prod.fst) = some i) :
    image_up_dn up images (some e)
      = (images, some ((images.map Prod.fst).getD
          ((if ((i : Int) + (if up then -1 else 1)) < 0 then 0
            else if ((images.map Prod.fst).length : Int) ≤ (i : Int) + (if up then -1 else 1)
            then ((images.map Prod.fst).length : Int) - 1
            else (i : Int) + (if up then -1 else 1)).toNat) e)) := by
  simp only [image_up_dn, hidx]

theorem clamp_eval (up : Bool) (i len : Nat) (hlt : i < len) :
    (if ((i : Int) + (if up then -1 else 1)) < 0 then 0
     else if (len : Int) ≤ (i : Int) + (if up then -1 else 1)
     then (len : Int) - 1 else (i : Int) + (if up then -1 else 1)).toNat
      = if up then i - 1 else min (i + 1) (len - 1) := by
  cases up <;> (try simp only [reduceIte]) <;> split_ifs with h1 h2 <;> omega

/-- C4 (amended): the image up/down buttons move the active selection, not
the image: `image_up_dn` leaves the image collection untouched and moves
the selection exactly one slot up or down among the entries, clamping at
the boundaries — up on the first entry and down on the last entry are
no-ops on the selection too (no error). -/
theorem image_up_dn_moves_selection (up : Bool) (images : List (List Char × Img))
    (e : List Char) (i : Nat)
    (hidx : list_index e (images.map Prod.fst) = some i) :
    (image_up_dn up images (some e)).1 = images
    ∧ (up = true → i = 0 → (image_up_dn up images (some e)).2 = some e)
    ∧ (up = false → i + 1 = (images.map Prod.fst).length →
        (image_up_dn up images (some e)).2 = some e)
    ∧ (up = true → 0 < i →
        (image_up_dn up images (some e)).2
          = some ((images.map Prod.fst).getD (i - 1) e))
    ∧ (up = false → i + 1 < (images.map Prod.fst).length →
        (image_up_dn up images (some e)).2
          = some ((images.map Prod.fst).getD (i + 1) e)) := by
  have hlt : i < (images.map Prod.fst).length := list_index_lt e _ i hidx
  have hget : (images.map Prod.fst).getD i e = e := list_index_get e _ i hidx
  have heval : image_up_dn up images (some e)
      = (images, some ((images.map Prod.fst).getD
          (if up then i - 1 else min (i + 1) ((images.map Prod.fst).length - 1)) e)) := by
    rw [image_up_dn_eval up images e i hidx, clamp_eval up i _ hlt]
  refine ⟨?_, ?_, ?_, ?_, ?_⟩
  · rw [heval]
  · intro hu h0
    subst hu
    subst h0
    rw [heval]
    simpa using hget
  · intro hu hlast
    subst hu
    rw [heval]
    have hm : min (i + 1) ((images.map Prod.fst).length - 1) = i := by omega
    simp only [Bool.false_eq_true, if_false, hm]
    rw [hget]
  · intro hu hpos
    subst hu
    rw [heval]
    simp
  · intro hu hmid
    subst hu
    rw [heval]
    have hm : min (i + 1) ((images.map Prod.fst).length - 1) = i + 1 := by omega
    simp only [Bool.false_eq_true, if_false, hm]

/-- Two-image collection for the selection-move counterexample. -/
def imagesTwo : List (List Char × Img) :=
  [("000_adf".data, { width := 1, height := 1, info_dpi := none, pixels := .src 0 }),
   ("001_adf".data, { width := 1, height := 1, info_dpi := none, pixels := .src 1 })]

/-- C4 counterexample: with the second of two images selected, the up
button leaves the collection order exactly as it was — the designated
image is not shifted one slot forward (that would reverse the two keys);
only the active selection moves to the first entry. -/
theorem image_up_dn_no_reorder_cex :
    (image_up_dn true imagesTwo (some ("001_adf".data))).1.map Prod.fst
      = ["000_adf".data, "001_adf".data]
    ∧ ("000_adf".data : List Char) ≠ "001_adf".data
    ∧ (image_up_dn true imagesTwo (some ("001_adf".data))).2 = some ("000_adf".data) := by
  refine ⟨by decide, by decide, by decide⟩

/-- Witness for the C4 theorem at a concrete input. -/
theorem image_up_dn_moves_selection_witness :
    (image_up_dn true imagesTwo (some ("001_adf".data))).1 = imagesTwo
    ∧ (image_up_dn true imagesTwo (some ("001_adf".data))).2
        = some ((imagesTwo.map Prod.fst).getD 0 ("001_adf".data)) := by
  obtain ⟨h1, -, -, h4, -⟩ :=
    image_up_dn_moves_selection true imagesTwo ("001_adf".data) 1 (by decide)
  exact ⟨h1, by simpa using h4 rfl (by norm_num)⟩
